import Mathlib

/-
Verification of the command-matching engine, dispatcher and control loop of
the voice-controlled lab automation program (voice_controller.py).

The matcher works on lists of characters; phrases and endpoints are the
literal strings of the source.  The two fallback regular expressions
`\b(turn|switch) .* all .* on\b` and `\b(turn|switch) .* all .* off\b`
are embedded as executable searches over character lists, with `.`
matching any character except a newline and `\b` the usual word boundary.
-/

namespace VoiceCtl

/-- Python `str.lower()`, character by character. -/
def lowerL (s : List Char) : List Char := s.map Char.toLower

/-- Python `p in text`: `p` occurs as a contiguous substring of `s`. -/
def isSubstr (p : List Char) : List Char → Bool
  | [] => p.isEmpty
  | c :: cs => p.isPrefixOf (c :: cs) || isSubstr p cs

/-- The ordered command table of `VoiceController.__init__`
(`self.command_map`), in its declaration order: tuples of trigger phrases
mapped to endpoint paths. -/
def command_map : List (List (List Char) × String) :=
  [ (["turn everything on".toList, "turn all on".toList, "all on".toList], "all/on"),
    (["turn everything off".toList, "turn all off".toList, "all off".toList], "all/off"),
    (["led on".toList, "turn on led".toList, "turn led on".toList], "led/on"),
    (["led off".toList, "turn off led".toList, "turn led off".toList], "led/off"),
    (["light on".toList, "turn on light".toList, "turn light on".toList], "light/on"),
    (["light off".toList, "turn off light".toList, "turn light off".toList], "light/off"),
    (["fan on".toList, "turn on fan".toList], "fan/on"),
    (["fan off".toList, "turn off fan".toList], "fan/off") ]

/-- The inner loop `for p in phrases: if p in text`. -/
def entryMatches (ps : List (List Char)) (t : List Char) : Bool :=
  ps.any (fun p => isSubstr p t)

/-- The outer loop `for phrases, endpoint in self.command_map.items()`:
first entry (in table order) one of whose phrases occurs in `t` wins. -/
def matchTable : List (List (List Char) × String) → List Char → Option String
  | [], _ => none
  | (ps, e) :: rest, t => if entryMatches ps t then some e else matchTable rest t

/-- Python regex `\w` (restricted to the ASCII range the program uses). -/
def isWordChar (c : Char) : Bool := c.isAlphanum || c == '_'

/-- Semantics of a `.*` regex piece followed by whatever `p` recognises:
consume any number of non-newline characters, then `p` must accept the
rest of the text. -/
def dotStarThen (p : List Char → Bool) : List Char → Bool
  | [] => p []
  | c :: cs => p (c :: cs) || (c != '\n' && dotStarThen p cs)

/-- The regex tail ` on\b`: a space, then `on`, then a word boundary. -/
def onEnd : List Char → Bool
  | ' ' :: 'o' :: 'n' :: post =>
    (match post with
     | [] => true
     | d :: _ => !isWordChar d)
  | _ => false

/-- The regex tail ` off\b`: a space, then `off`, then a word boundary. -/
def offEnd : List Char → Bool
  | ' ' :: 'o' :: 'f' :: 'f' :: post =>
    (match post with
     | [] => true
     | d :: _ => !isWordChar d)
  | _ => false

/-- The regex middle ` all .*` followed by the given tail. -/
def allMid (endP : List Char → Bool) : List Char → Bool
  | ' ' :: 'a' :: 'l' :: 'l' :: ' ' :: r => dotStarThen endP r
  | _ => false

/-- Strip the literal pattern `p` from the front of `s`, if present. -/
def dropLit : List Char → List Char → Option (List Char)
  | [], s => some s
  | _ :: _, [] => none
  | p :: ps, c :: cs => if p = c then dropLit ps cs else none

/-- Apply `q` to the payload of an optional remainder. -/
def tryFrom (q : List Char → Bool) : Option (List Char) → Bool
  | some r => q r
  | none => false

/-- A regex match beginning here: `(turn|switch) .*` then ` all .*` then
the tail.  The space after the verb is part of the stripped literal. -/
def verbStart (endP : List Char → Bool) (s : List Char) : Bool :=
  tryFrom (dotStarThen (allMid endP)) (dropLit ("turn ".toList) s) ||
  tryFrom (dotStarThen (allMid endP)) (dropLit ("switch ".toList) s)

/-- `re.search`: try the pattern at every position whose left context is a
word boundary (`prev` records whether the previous character was a word
character; the pattern starts with a word character). -/
def searchFrom (startP : List Char → Bool) : Bool → List Char → Bool
  | prev, [] => !prev && startP []
  | prev, c :: cs => (!prev && startP (c :: cs)) || searchFrom startP (isWordChar c) cs

/-- `re.search(r"\b(turn|switch) .* all .* on\b", text)`, as a Bool. -/
def searchAllOn (s : List Char) : Bool := searchFrom (verbStart onEnd) false s

/-- `re.search(r"\b(turn|switch) .* all .* off\b", text)`, as a Bool. -/
def searchAllOff (s : List Char) : Bool := searchFrom (verbStart offEnd) false s

/-- `VoiceController._match_command`: lowercase, walk the command table in
order, then the two fallback patterns in fixed order, else no match. -/
def match_command (text : List Char) : Option String :=
  match matchTable command_map (lowerL text) with
  | some e => some e
  | none =>
    if searchAllOn (lowerL text) then some "all/on"
    else if searchAllOff (lowerL text) then some "all/off"
    else none

/-- Every table phrase misses the (already lowercased) text. -/
def tableFree (t : List Char) : Bool :=
  command_map.all (fun pe => !entryMatches pe.1 t)

/-! ## Dispatcher (`VoiceController.send_command`)

The single `session.get` call is abstracted by its observable outcome: a
`requests.RequestException` or a response with a status code.
`raise_for_status` raises (a `RequestException` subclass) exactly for
status codes in `[400, 600)`. -/

/-- Outcome of the one HTTP GET issued by `send_command`. -/
inductive HttpResult where
  | exn : HttpResult
  | status : Nat → HttpResult
deriving DecidableEq

/-- The codes for which `Response.raise_for_status` raises. -/
def errorStatus (c : Nat) : Bool := decide (400 ≤ c) && decide (c < 600)

/-- What `send_command` does: which URL it targets, its Bool result, and
whether it logged the failure warning. -/
structure SendOutcome where
  url : String
  ok : Bool
  warned : Bool
deriving DecidableEq

/-- `url = f"http://{self.esp32_ip}/{path}"`. -/
def buildUrl (ip path : String) : String := "http://" ++ ip ++ "/" ++ path

/-- `VoiceController.send_command`: GET the endpoint URL; any
`RequestException` (network failure or raised error status) is caught,
logged as a warning, and turned into `False`; otherwise `True`.  The
function is total: it never raises to its caller. -/
def send_command (ip path : String) (r : HttpResult) : SendOutcome :=
  match r with
  | HttpResult.exn => ⟨buildUrl ip path, false, true⟩
  | HttpResult.status c =>
    if errorStatus c then ⟨buildUrl ip path, false, true⟩
    else ⟨buildUrl ip path, true, false⟩

/-! ## Control loop (`VoiceController.run` / `stop`)

One loop iteration is modelled as the list of observable events it emits,
parametrised by the dispatch results (`f`).  The surrounding `while
self.running` loop is modelled over a finite schedule of listen outcomes
interleaved with the asynchronous stop signal. -/

/-- Observable events of one loop iteration. -/
inductive Ev where
  | sleepPause : Ev
  | matchCall : List Char → Ev
  | send : String → Bool → Ev
  | delay : Ev
deriving DecidableEq

/-- The tuple `("led/on", "light/on", "projector/on", "fan/on")` iterated
by the `all/on` branch of `run`. -/
def allOnSeq : List String := ["led/on", "light/on", "projector/on", "fan/on"]

/-- The tuple `("led/off", "light/off", "projector/off", "fan/off")`
iterated by the `all/off` branch of `run`. -/
def allOffSeq : List String := ["led/off", "light/off", "projector/off", "fan/off"]

/-- The dispatching part of a loop iteration: the two composite endpoints
expand to a `send_command`/`time.sleep(0.1)` pair per member (the result
of each send is recorded but, as in the source, never consulted); a
concrete endpoint is sent once. -/
def dispatchEvents (f : String → Bool) (e : String) : List Ev :=
  if e = "all/on" then
    allOnSeq.foldr (fun x acc => Ev.send x (f x) :: Ev.delay :: acc) []
  else if e = "all/off" then
    allOffSeq.foldr (fun x acc => Ev.send x (f x) :: Ev.delay :: acc) []
  else [Ev.send e (f e)]

/-- The endpoints actually passed to the dispatcher in an event list. -/
def sendsOf (evs : List Ev) : List String :=
  evs.filterMap (fun ev =>
    match ev with
    | Ev.send x _ => some x
    | _ => none)

/-- One body of the `while self.running` loop, given the result of
`listen_once` (`none` models both recognition failure cases):
`if not text` — which is also true for the empty string — sleeps for the
pause duration and restarts; otherwise the matcher runs, a `None` match
restarts immediately, and a match dispatches. -/
def cycleEvents (f : String → Bool) (o : Option (List Char)) : List Ev :=
  match o with
  | none => [Ev.sleepPause]
  | some t =>
    if t.isEmpty then [Ev.sleepPause]
    else
      Ev.matchCall t ::
        (match match_command t with
         | none => []
         | some e => dispatchEvents f e)

/-- External happenings the loop reacts to: the asynchronous stop signal
(SIGINT handler calling `stop()`), or one `listen_once` outcome. -/
inductive Step where
  | stopSig : Step
  | listen : Option (List Char) → Step

/-- Value of the `running` flag after a sequence of steps: only
`stop()` writes it, and it writes `False`. -/
def runningAfter : Bool → List Step → Bool
  | r, [] => r
  | _, Step.stopSig :: rest => runningAfter false rest
  | r, Step.listen _ :: rest => runningAfter r rest

/-- The loop bodies executed over a schedule: the flag is consulted at
the top of each iteration, so once it is false no further cycle begins. -/
def loopCycles (f : String → Bool) : Bool → List Step → List (List Ev)
  | _, [] => []
  | _, Step.stopSig :: rest => loopCycles f false rest
  | r, Step.listen o :: rest =>
    if r then cycleEvents f o :: loopCycles f r rest
    else loopCycles f r rest

/-- The controller state the claims are about: the `running` flag. -/
structure CState where
  running : Bool

/-- `__init__` sets `self.running = True`. -/
def mkController : CState := ⟨true⟩

/-- `VoiceController.stop` sets `self.running = False`. -/
def stop (_s : CState) : CState := ⟨false⟩

/-! ## Helper lemmas -/

theorem matchTable_mem_snd (m : List (List (List Char) × String)) (t : List Char)
    (e : String) (h : matchTable m t = some e) : e ∈ m.map Prod.snd := by
  induction m with
  | nil => simp [matchTable] at h
  | cons pe rest ih =>
    obtain ⟨ps, e0⟩ := pe
    by_cases hm : entryMatches ps t
    · simp [matchTable, hm] at h
      simp [h]
    · simp only [matchTable, hm, if_false, Bool.false_eq_true, if_neg] at h
      simp [ih h]

theorem matchTable_first (m : List (List (List Char) × String)) (t : List Char)
    (i : Nat) (psi : List (List Char)) (ei : String)
    (hi : m[i]? = some (psi, ei))
    (hmi : entryMatches psi t = true)
    (hmin : (m.take i).all (fun pe => !entryMatches pe.1 t) = true) :
    matchTable m t = some ei := by
  induction m generalizing i with
  | nil => simp at hi
  | cons pe rest ih =>
    obtain ⟨ps, e0⟩ := pe
    cases i with
    | zero =>
      simp only [List.getElem?_cons_zero, Option.some.injEq, Prod.mk.injEq] at hi
      obtain ⟨h1, h2⟩ := hi
      subst h1; subst h2
      simp [matchTable, hmi]
    | succ n =>
      simp only [List.getElem?_cons_succ] at hi
      simp only [List.take_succ_cons, List.all_cons, Bool.and_eq_true,
        Bool.not_eq_true'] at hmin
      obtain ⟨hhead, htail⟩ := hmin
      simp only [matchTable, hhead, Bool.false_eq_true, if_neg, if_false]
      exact ih n hi htail

theorem matchTable_none_of_free (m : List (List (List Char) × String)) (t : List Char)
    (h : m.all (fun pe => !entryMatches pe.1 t) = true) : matchTable m t = none := by
  induction m with
  | nil => rfl
  | cons pe rest ih =>
    obtain ⟨ps, e0⟩ := pe
    simp only [List.all_cons, Bool.and_eq_true, Bool.not_eq_true'] at h
    simp [matchTable, h.1, ih h.2]

theorem matchTable_isSome_of_any (m : List (List (List Char) × String)) (t : List Char)
    (h : m.any (fun pe => entryMatches pe.1 t) = true) :
    (matchTable m t).isSome = true := by
  induction m with
  | nil => simp at h
  | cons pe rest ih =>
    obtain ⟨ps, e0⟩ := pe
    by_cases hm : entryMatches ps t
    · simp [matchTable, hm]
    · simp only [List.any_cons, Bool.or_eq_true] at h
      rcases h with h | h
      · exact absurd h hm
      · simp [matchTable, hm, ih h]

theorem dropLit_self (p r : List Char) : dropLit p (p ++ r) = some r := by
  induction p with
  | nil => rfl
  | cons c cs ih => simp [dropLit, ih]

theorem dotStar_here (p : List Char → Bool) (r : List Char) (h : p r = true) :
    dotStarThen p r = true := by
  cases r with
  | nil => simpa [dotStarThen] using h
  | cons c cs => simp [dotStarThen, h]

theorem dotStar_complete (p : List Char → Bool) (x r : List Char)
    (hx : x.all (fun c => c != '\n') = true) (hp : p r = true) :
    dotStarThen p (x ++ r) = true := by
  induction x with
  | nil => simpa using dotStar_here p r hp
  | cons c cs ih =>
    simp only [List.all_cons, Bool.and_eq_true] at hx
    simp [dotStarThen, hx.1, ih hx.2]

theorem search_complete (startP : List Char → Bool) (pre b : List Char) (prev : Bool)
    (hpre : (pre = [] ∧ prev = false) ∨
      (∃ pre2 a, pre = pre2 ++ [a] ∧ isWordChar a = false))
    (hb : startP b = true) :
    searchFrom startP prev (pre ++ b) = true := by
  induction pre generalizing prev with
  | nil =>
    rcases hpre with ⟨_, rfl⟩ | ⟨pre2, a, hcontra, _⟩
    · cases b with
      | nil => simpa [searchFrom] using hb
      | cons c cs => simp [searchFrom, hb]
    · exact absurd hcontra.symm (by simp)
  | cons c cs ih =>
    have hnext : (cs = [] ∧ isWordChar c = false) ∨
        (∃ pre2 a, cs = pre2 ++ [a] ∧ isWordChar a = false) := by
      rcases hpre with ⟨hcontra, _⟩ | ⟨pre2, a, heq, ha⟩
      · exact absurd hcontra (List.cons_ne_nil c cs)
      · cases pre2 with
        | nil =>
          simp only [List.nil_append, List.cons.injEq] at heq
          exact Or.inl ⟨heq.2, heq.1 ▸ ha⟩
        | cons d ds =>
          simp only [List.cons_append, List.cons.injEq] at heq
          exact Or.inr ⟨ds, a, heq.2, ha⟩
    have := ih (isWordChar c) hnext
    simp [searchFrom, this]

theorem dispatch_no_matchCall (f : String → Bool) (e : String)
    (pr : Ev → Bool) (hpr : ∀ x b, pr (Ev.send x b) = true) (hd : pr Ev.delay = true) :
    (dispatchEvents f e).all pr = true := by
  by_cases h1 : e = "all/on"
  · subst h1; simp [dispatchEvents, allOnSeq, hpr, hd]
  · by_cases h2 : e = "all/off"
    · subst h2; simp [dispatchEvents, allOffSeq, h1, hpr, hd]
    · simp [dispatchEvents, h1, h2, hpr]

/-! ## Claims -/

/-- Claim C1: the claim (and the repository's own test `test_match_simple`)
says `match("projector off now") == "projector/off"` and that the matcher
reaches the projector endpoints.  The code disagrees: `command_map` has no
projector entry at all, so `_match_command "projector off now"` returns
`None` and no projector endpoint is ever produced by the table.  This
theorem evaluates the code at the failing input. -/
theorem c1_projector_unmatched :
    match_command ("projector off now".toList) = none
    ∧ (command_map.map Prod.snd).contains "projector/off" = false
    ∧ (command_map.map Prod.snd).contains "projector/on" = false := by
  refine ⟨by decide, by decide, by decide⟩

/-- Claim C7: the matcher returns the literal results of the
non-projector fixtures of the spec and of `test_match_simple`. -/
theorem c7_literal_fixtures :
    match_command ("LED on".toList) = some "led/on"
    ∧ match_command ("turn led off".toList) = some "led/off"
    ∧ match_command ("please turn the light on".toList) = some "light/on"
    ∧ match_command ("fan on please".toList) = some "fan/on"
    ∧ match_command ("turn everything on".toList) = some "all/on"
    ∧ match_command ("can you turn everything off".toList) = some "all/off" := by
  refine ⟨by decide, by decide, by decide, by decide, by decide, by decide⟩

/-- Claim C8: when no table phrase occurs and neither fallback pattern
matches, the matcher returns `none` as a normal outcome; in particular
`match("play music") = None`, and the empty string is legal and matches
nothing. -/
theorem c8_no_match :
    (∀ t : List Char, tableFree (lowerL t) = true →
      searchAllOn (lowerL t) = false → searchAllOff (lowerL t) = false →
      match_command t = none)
    ∧ match_command ("play music".toList) = none
    ∧ match_command ([] : List Char) = none := by
  refine ⟨?_, by decide, by decide⟩
  intro t hfree hon hoff
  have hnone : matchTable command_map (lowerL t) = none :=
    matchTable_none_of_free command_map (lowerL t) hfree
  simp [match_command, hnone, hon, hoff]

/-- Witness for C8 at the concrete input `"play music"`. -/
theorem c8_no_match_w : match_command ("play music".toList) = none :=
  c8_no_match.1 ("play music".toList) (by decide) (by decide) (by decide)

/-- Claim C9: for every input, `_match_command` returns `None` or one of
exactly eight endpoint strings; in particular it never returns
`"projector/on"` or `"projector/off"`, although the composite expansion
sequences of the control loop dispatch those endpoints. -/
theorem c9_matcher_range (t : List Char) :
    match_command t ∈
      ([none, some "all/on", some "all/off", some "led/on", some "led/off",
        some "light/on", some "light/off", some "fan/on", some "fan/off"] :
        List (Option String)) := by
  cases h : matchTable command_map (lowerL t) with
  | none =>
    have hc : match_command t =
        (if searchAllOn (lowerL t) then some "all/on"
         else if searchAllOff (lowerL t) then some "all/off" else none) := by
      simp [match_command, h]
    rw [hc]
    split_ifs <;> decide
  | some e =>
    have hc : match_command t = some e := by simp [match_command, h]
    have hmem := matchTable_mem_snd command_map (lowerL t) e h
    rw [show command_map.map Prod.snd =
      (["all/on", "all/off", "led/on", "led/off", "light/on", "light/off",
        "fan/on", "fan/off"] : List String) from rfl] at hmem
    rw [hc]
    simp only [List.mem_cons, List.not_mem_nil, or_false] at hmem
    rcases hmem with rfl | rfl | rfl | rfl | rfl | rfl | rfl | rfl <;> decide

/-- Claim C2: the matcher is first-match-wins in table order.  First
part: if the (lowercased) utterance contains phrases of entries `i` and
`j` with `i < j`, and no entry before `i` matches, the result is entry
`i`'s endpoint.  Second part: whenever any table entry matches, the table
result is returned even if a fallback regex also matches — the regex
fallback is never consulted. -/
theorem c2_first_match :
    (∀ (t : List Char) (i j : Nat) (psi psj : List (List Char)) (ei ej : String),
      i < j →
      command_map[i]? = some (psi, ei) →
      command_map[j]? = some (psj, ej) →
      entryMatches psi (lowerL t) = true →
      entryMatches psj (lowerL t) = true →
      (command_map.take i).all (fun pe => !entryMatches pe.1 (lowerL t)) = true →
      match_command t = some ei)
    ∧ (∀ t : List Char,
      command_map.any (fun pe => entryMatches pe.1 (lowerL t)) = true →
      (searchAllOn (lowerL t) || searchAllOff (lowerL t)) = true →
      (matchTable command_map (lowerL t)).isSome = true
      ∧ match_command t = matchTable command_map (lowerL t)) := by
  constructor
  · intro t i j psi psj ei ej _ hi _ hmi _ hmin
    have h := matchTable_first command_map (lowerL t) i psi ei hi hmi hmin
    simp [match_command, h]
  · intro t hany _
    have h := matchTable_isSome_of_any command_map (lowerL t) hany
    obtain ⟨e, he⟩ := Option.isSome_iff_exists.mp h
    refine ⟨h, ?_⟩
    simp [match_command, he]

/-- Witness for C2: `"turn the light off and the fan on"` contains
phrases of entries 5 (`light/off`) and 6 (`fan/on`) and entry 5 wins;
`"turn on fan and all others on"` contains a table phrase and also
matches the `all ... on` fallback regex, and the table entry wins. -/
theorem c2_first_match_w :
    match_command ("turn the light off and the fan on".toList) = some "light/off"
    ∧ match_command ("turn on fan and all others on".toList) = some "fan/on" := by
  constructor
  · exact c2_first_match.1 ("turn the light off and the fan on".toList) 5 6
      (["light off".toList, "turn off light".toList, "turn light off".toList])
      (["fan on".toList, "turn on fan".toList])
      "light/off" "fan/on" (by decide) (by decide) (by decide)
      (by decide) (by decide) (by decide)
  · have h := c2_first_match.2 ("turn on fan and all others on".toList)
      (by decide) (by decide)
    exact h.2.trans (by decide)

/-- Claim C4: the composite `all/on` expands to dispatch calls for the
four concrete on-endpoints in the fixed order led, light, projector, fan
with a fixed delay between calls, for every dispatch-result oracle `f`
(so a member's failure never aborts the remaining members); analogously
for `all/off`; and the composite identifiers themselves are never among
the endpoints passed to the dispatcher. -/
theorem c4_composite_expansion (f : String → Bool) :
    dispatchEvents f "all/on" =
      [Ev.send "led/on" (f "led/on"), Ev.delay,
       Ev.send "light/on" (f "light/on"), Ev.delay,
       Ev.send "projector/on" (f "projector/on"), Ev.delay,
       Ev.send "fan/on" (f "fan/on"), Ev.delay]
    ∧ dispatchEvents f "all/off" =
      [Ev.send "led/off" (f "led/off"), Ev.delay,
       Ev.send "light/off" (f "light/off"), Ev.delay,
       Ev.send "projector/off" (f "projector/off"), Ev.delay,
       Ev.send "fan/off" (f "fan/off"), Ev.delay]
    ∧ (∀ e : String,
        (sendsOf (dispatchEvents f e)).contains "all/on" = false
        ∧ (sendsOf (dispatchEvents f e)).contains "all/off" = false) := by
  refine ⟨rfl, rfl, ?_⟩
  intro e
  by_cases h1 : e = "all/on"
  · subst h1; exact ⟨rfl, rfl⟩
  · by_cases h2 : e = "all/off"
    · subst h2; exact ⟨rfl, rfl⟩
    · have hd : dispatchEvents f e = [Ev.send e (f e)] := by
        simp [dispatchEvents, h1, h2]
      have hs : sendsOf (dispatchEvents f e) = [e] := by
        rw [hd]; rfl
      rw [hs]
      constructor
      · simp [List.contains_cons, Ne.symm h1]
      · simp [List.contains_cons, Ne.symm h2]

/-- Claim C5: the dispatcher targets
`http://<configured host>/<endpoint path>`, returns `true` iff the single
GET produced no exception and no error status (i.e. a 2xx/3xx-style
success per `raise_for_status`), and on any network failure or error
status it logs a warning and returns `false`; it is a total function of
the request outcome, so it never raises to the caller. -/
theorem c5_dispatcher (ip path : String) (r : HttpResult) :
    (send_command ip path r).url = "http://" ++ ip ++ "/" ++ path
    ∧ ((send_command ip path r).ok = true ↔
        ∃ c, r = HttpResult.status c ∧ errorStatus c = false)
    ∧ (send_command ip path r).warned = !(send_command ip path r).ok := by
  cases r with
  | exn => simp [send_command, buildUrl]
  | status c =>
    by_cases h : errorStatus c = true
    · simp [send_command, buildUrl, h]
    · simp only [Bool.not_eq_true] at h
      simp [send_command, buildUrl, h]

/-- Claim C6: the run flag is `true` at construction and set `false` by
`stop()`; no operation resets it to `true` (from `false` it stays `false`
under every schedule of stop signals and listen outcomes); and once the
flag is `false` no further listen/match/dispatch cycle begins, because
the flag is consulted at the top of each loop iteration. -/
theorem c6_stop_semantics :
    mkController.running = true
    ∧ (∀ s : CState, (stop s).running = false)
    ∧ (∀ steps : List Step, runningAfter false steps = false)
    ∧ (∀ (f : String → Bool) (steps : List Step), loopCycles f false steps = []) := by
  refine ⟨rfl, fun s => rfl, ?_, ?_⟩
  · intro steps
    induction steps with
    | nil => rfl
    | cons st rest ih =>
      cases st with
      | stopSig => exact ih
      | listen o => exact ih
  · intro f steps
    induction steps with
    | nil => rfl
    | cons st rest ih =>
      cases st with
      | stopSig => exact ih
      | listen o => simpa [loopCycles] using ih

/-- Claim C10: when `listen_once` yields no result or the empty string,
the loop iteration consists of exactly the pause sleep — it re-enters
listening without invoking the matcher or the dispatcher — and
consequently the matcher is never invoked on empty text in any
iteration. -/
theorem c10_empty_listen (f : String → Bool) :
    cycleEvents f none = [Ev.sleepPause]
    ∧ cycleEvents f (some []) = [Ev.sleepPause]
    ∧ (∀ o : Option (List Char),
        (cycleEvents f o).all
          (fun ev =>
            match ev with
            | Ev.matchCall t => !t.isEmpty
            | _ => true) = true) := by
  refine ⟨rfl, rfl, ?_⟩
  intro o
  cases o with
  | none => rfl
  | some t =>
    cases t with
    | nil => rfl
    | cons c cs =>
      have hne : (c :: cs).isEmpty = false := rfl
      simp only [cycleEvents, hne, Bool.false_eq_true, if_neg, if_false,
        List.all_cons, Bool.and_eq_true]
      refine ⟨rfl, ?_⟩
      cases h : match_command (c :: cs) with
      | none => rfl
      | some e =>
        exact dispatch_no_matchCall f e _ (fun x b => rfl) rfl

/-- Claim C3 counterexample: the utterance `"turn all lights on"`
contains no table phrase and has the verb/all/on shape with no filler
word between the verb and `all` (single spacing), yet the matcher
returns `none`, not `all/on` — because `.*` in
`\b(turn|switch) .* all .* on\b` sits between two mandatory spaces, so
with single spacing at least one filler word is required in each gap. -/
theorem c3_counterexample :
    tableFree (lowerL ("turn all lights on".toList)) = true
    ∧ isSubstr ("turn ".toList) ("turn all lights on".toList) = true
    ∧ isSubstr (" all ".toList) ("turn all lights on".toList) = true
    ∧ isSubstr (" on".toList) ("turn all lights on".toList) = true
    ∧ match_command ("turn all lights on".toList) = none := by
  refine ⟨by decide, by decide, by decide, by decide, by decide⟩

/-- Claim C3 (amended): when no command-table phrase occurs, the matcher
applies exactly the two fallback patterns in fixed order (`all … on`
first, then `all … off`), and every table-phrase-free utterance of the
shape `⟨boundary⟩(turn|switch)␣X␣all␣Y␣on⟨boundary⟩` — with `X` and `Y`
arbitrary newline-free, possibly empty character runs, each gap
delimited by its own spaces (so at least one filler word, or an extra
space, between the verb and `all` and between `all` and `on`) — maps to
`all/on`. -/
theorem c3_fallback_patterns :
    (∀ t : List Char, tableFree (lowerL t) = true →
      match_command t =
        (if searchAllOn (lowerL t) then some "all/on"
         else if searchAllOff (lowerL t) then some "all/off" else none))
    ∧ (∀ (t pre x y post v : List Char),
        (v = "turn".toList ∨ v = "switch".toList) →
        (pre = [] ∨ ∃ pre2 a, pre = pre2 ++ [a] ∧ isWordChar a = false) →
        x.all (fun c => c != '\n') = true →
        y.all (fun c => c != '\n') = true →
        (post = [] ∨ ∃ b post2, post = b :: post2 ∧ isWordChar b = false) →
        lowerL t = pre ++ v ++ [' '] ++ x ++ (' ' :: 'a' :: 'l' :: 'l' :: [' ']) ++ y
          ++ (' ' :: 'o' :: 'n' :: ([] : List Char)) ++ post →
        tableFree (lowerL t) = true →
        match_command t = some "all/on") := by
  constructor
  · intro t hfree
    have hnone : matchTable command_map (lowerL t) = none :=
      matchTable_none_of_free command_map (lowerL t) hfree
    simp [match_command, hnone]
  · intro t pre x y post v hv hpre hx hy hpost heq hfree
    have honEnd : onEnd (' ' :: 'o' :: 'n' :: post) = true := by
      rcases hpost with rfl | ⟨b, post2, rfl, hb⟩
      · rfl
      · simp [onEnd, hb]
    have hafter : dotStarThen onEnd (y ++ (' ' :: 'o' :: 'n' :: post)) = true :=
      dotStar_complete onEnd y _ hy honEnd
    have hmid : allMid onEnd
        (' ' :: 'a' :: 'l' :: 'l' :: ' ' :: (y ++ (' ' :: 'o' :: 'n' :: post))) = true :=
      hafter
    have hR : dotStarThen (allMid onEnd)
        (x ++ (' ' :: 'a' :: 'l' :: 'l' :: ' ' :: (y ++ (' ' :: 'o' :: 'n' :: post)))) = true :=
      dotStar_complete (allMid onEnd) x _ hx hmid
    have hverb : verbStart onEnd
        (v ++ ' ' :: (x ++ (' ' :: 'a' :: 'l' :: 'l' :: ' ' :: (y ++ (' ' :: 'o' :: 'n' :: post))))) = true := by
      rcases hv with rfl | rfl
      · have e1 : ("turn".toList ++ ' ' :: (x ++ (' ' :: 'a' :: 'l' :: 'l' :: ' ' :: (y ++ (' ' :: 'o' :: 'n' :: post)))))
            = ("turn ".toList ++ (x ++ (' ' :: 'a' :: 'l' :: 'l' :: ' ' :: (y ++ (' ' :: 'o' :: 'n' :: post))))) := rfl
        rw [e1]
        unfold verbStart
        rw [dropLit_self]
        simp [tryFrom, hR]
      · have e1 : ("switch".toList ++ ' ' :: (x ++ (' ' :: 'a' :: 'l' :: 'l' :: ' ' :: (y ++ (' ' :: 'o' :: 'n' :: post)))))
            = ("switch ".toList ++ (x ++ (' ' :: 'a' :: 'l' :: 'l' :: ' ' :: (y ++ (' ' :: 'o' :: 'n' :: post))))) := rfl
        rw [e1]
        unfold verbStart
        rw [dropLit_self]
        simp [tryFrom, hR]
    have hpre2 : (pre = [] ∧ false = false) ∨
        (∃ pre2 a, pre = pre2 ++ [a] ∧ isWordChar a = false) := by
      rcases hpre with rfl | h
      · exact Or.inl ⟨rfl, rfl⟩
      · exact Or.inr h
    have hsearch0 : searchFrom (verbStart onEnd) false
        (pre ++ (v ++ ' ' :: (x ++ (' ' :: 'a' :: 'l' :: 'l' :: ' ' :: (y ++ (' ' :: 'o' :: 'n' :: post)))))) = true :=
      search_complete (verbStart onEnd) pre _ false hpre2 hverb
    have hshape : pre ++ v ++ [' '] ++ x ++ (' ' :: 'a' :: 'l' :: 'l' :: [' ']) ++ y
          ++ (' ' :: 'o' :: 'n' :: ([] : List Char)) ++ post
        = pre ++ (v ++ ' ' :: (x ++ (' ' :: 'a' :: 'l' :: 'l' :: ' ' :: (y ++ (' ' :: 'o' :: 'n' :: post))))) := by
      simp [List.append_assoc]
    have hLow : lowerL t
        = pre ++ (v ++ ' ' :: (x ++ (' ' :: 'a' :: 'l' :: 'l' :: ' ' :: (y ++ (' ' :: 'o' :: 'n' :: post))))) :=
      heq.trans hshape
    have hsOn : searchAllOn (lowerL t) = true := by
      rw [hLow]; exact hsearch0
    have hnone : matchTable command_map (lowerL t) = none :=
      matchTable_none_of_free command_map (lowerL t) hfree
    simp [match_command, hnone, hsOn]

/-- Witness for C3 (amended): `"please turn it all the way on"` is
table-phrase-free and of the required shape (`pre = "please "`,
`X = "it"`, `Y = "the way"`), and maps to `all/on`. -/
theorem c3_fallback_patterns_w :
    match_command ("please turn it all the way on".toList) = some "all/on" :=
  c3_fallback_patterns.2 ("please turn it all the way on".toList)
    ("please ".toList) ("it".toList) ("the way".toList) [] ("turn".toList)
    (Or.inl rfl)
    (Or.inr ⟨"please".toList, ' ', by decide⟩)
    (by decide) (by decide)
    (Or.inl rfl)
    (by decide)
    (by decide)

end VoiceCtl
